import Mathlib

/-!
Verification of the reconciliation engine of the obsidian-gitee-sync plugin.

The development shallowly embeds the sync manager (sync-manager source file):
its metadata records, the conflict detector findConflicts, the three-way
classifier determineSyncActions, the content hasher calculateSHA, the commit
coordinator commitSync, the conflict-handling step of syncImpl, and the
bootstrap decision of firstSyncImpl / vaultIsEmpty.

JavaScript objects keyed by path are embedded as association lists
(List (String × _)); indexing is assocLookup, assignment is assocSet.
External collaborators (the SHA-1 primitive of crypto.subtle, the vault
adapter, the remote client) are parameters: the classifier receives the
per-path freshly computed hash as a function shaFn, and commitSync receives
the outcome of the atomic remote commit as a boolean.
-/

namespace GiteeSync

/-- The four kinds of sync actions produced by the classifier. -/
inductive SyncActionType
  | upload
  | download
  | delete_local
  | delete_remote
deriving DecidableEq, Repr

/-- SyncAction of the sync manager: one action per path per run. -/
structure SyncAction where
  type : SyncActionType
  filePath : String
deriving DecidableEq, Repr

/-- FileMetadata record of the metadata store, one per tracked path.
sha is Option String: none embeds the JavaScript null/undefined.
deletedAt is Option Nat: none embeds an absent tombstone timestamp. -/
structure FileMetadata where
  path : String
  sha : Option String
  dirty : Bool
  justDownloaded : Bool
  lastModified : Nat
  deleted : Bool := false
  deletedAt : Option Nat := none
deriving DecidableEq, Repr

/-- Modelled from the spec: the metadata store module is not part of the
provided sources; the spec fixes a single well-known manifest path holding the
serialized metadata snapshot. The benchmark harness shows the file name used
by the store is gitee-sync-metadata.json inside the config directory. -/
def MANIFEST_FILE_NAME : String := "gitee-sync-metadata.json"

/-- The manifest marker path: configDir/MANIFEST_FILE_NAME. -/
def manifestPath (configDir : String) : String :=
  configDir ++ "/" ++ MANIFEST_FILE_NAME

/-- JavaScript object indexing obj[key] on an association list: returns the
value of the first matching key, none when the key is absent. -/
def assocLookup {α : Type} : List (String × α) → String → Option α
  | [], _ => none
  | (k, v) :: rest, p => if p = k then some v else assocLookup rest p

/-- JavaScript object assignment obj[key] = v: overwrites the existing entry
or appends a new one (insertion order is preserved). -/
def assocSet {α : Type} (m : List (String × α)) (p : String) (v : α) :
    List (String × α) :=
  if (assocLookup m p).isSome then
    m.map (fun kv => if kv.1 = p then (p, v) else kv)
  else m ++ [(p, v)]

/-- Mutating one field of an existing record: obj[key].field = v.
A no-op when the key is absent. -/
def setRecordField (m : List (String × FileMetadata)) (p : String)
    (f : FileMetadata → FileMetadata) : List (String × FileMetadata) :=
  m.map (fun kv => if kv.1 = p then (kv.1, f kv.2) else kv)

/-- JavaScript comparison deletedAt > n where deletedAt may be undefined:
undefined compares false. -/
def jsGtOpt (a : Option Nat) (b : Nat) : Bool :=
  match a with
  | some x => b < x
  | none => false

/-- JavaScript comparison deletedAt < n where deletedAt may be undefined:
undefined compares false. -/
def jsLtOpt (a : Option Nat) (b : Nat) : Bool :=
  match a with
  | some x => x < b
  | none => false

/-- The body of the common-files loop of determineSyncActions for one path
present in both maps: at most one action per path.
Mirrors the source: the manifest never triggers an action; both sides
tombstoned is a no-op; identical remote hash and freshly computed local
hash is a no-op; then tombstone timestamp tie-breaking; then the final
hash comparison (upload when the local file changed, download otherwise). -/
def syncActionForCommon (configDir : String) (shaFn : String → Option String)
    (filePath : String) (remoteFile localFile : FileMetadata) :
    Option SyncAction :=
  -- localSHA in the source is the freshly computed hash, here shaFn filePath
  if filePath = manifestPath configDir then none
  else if remoteFile.deleted && localFile.deleted then none
  else if remoteFile.sha = shaFn filePath then none
  else if remoteFile.deleted && !localFile.deleted &&
      jsGtOpt remoteFile.deletedAt localFile.lastModified then
    some { type := .delete_local, filePath := filePath }
  else if remoteFile.deleted && !localFile.deleted &&
      jsLtOpt remoteFile.deletedAt localFile.lastModified then
    some { type := .upload, filePath := filePath }
  else if !remoteFile.deleted && localFile.deleted &&
      jsLtOpt localFile.deletedAt remoteFile.lastModified then
    some { type := .download, filePath := filePath }
  else if !remoteFile.deleted && localFile.deleted &&
      jsGtOpt localFile.deletedAt remoteFile.lastModified then
    some { type := .delete_remote, filePath := filePath }
  else if shaFn filePath ≠ localFile.sha then
    some { type := .upload, filePath := filePath }
  else
    some { type := .download, filePath := filePath }

/-- The common-files loop body applied through the lookups: the action for
a path expected to be present in both maps. -/
def commonFileAction (configDir : String) (shaFn : String → Option String)
    (remoteFiles localFiles : List (String × FileMetadata))
    (filePath : String) : Option SyncAction :=
  match assocLookup remoteFiles filePath, assocLookup localFiles filePath with
  | some remoteFile, some localFile =>
    syncActionForCommon configDir shaFn filePath remoteFile localFile
  | _, _ => none

/-- The remote-only loop body of determineSyncActions: paths in the remote
map without a local record download unless tombstoned remotely. -/
def remoteOnlyAction (localFiles : List (String × FileMetadata))
    (kv : String × FileMetadata) : Option SyncAction :=
  if (assocLookup localFiles kv.1).isSome then none
  else if kv.2.deleted then none
  else some { type := .download, filePath := kv.1 }

/-- The local-only loop body of determineSyncActions: paths in the local
map without a remote record upload unless tombstoned locally. -/
def localOnlyAction (remoteFiles : List (String × FileMetadata))
    (kv : String × FileMetadata) : Option SyncAction :=
  if (assocLookup remoteFiles kv.1).isSome then none
  else if kv.2.deleted then none
  else some { type := .upload, filePath := kv.1 }

/-- The paths iterated by the common-files loop: remote keys with a local
record, minus the conflicting files. -/
def commonFilesOf (localFiles : List (String × FileMetadata))
    (remoteFiles : List (String × FileMetadata))
    (conflictFiles : List String) : List String :=
  (remoteFiles.map Prod.fst).filter (fun filePath =>
    (assocLookup localFiles filePath).isSome &&
      !(decide (filePath ∈ conflictFiles)))

/-- The action list of determineSyncActions before the config-directory
filter: the common-files loop, then the remote-only loop, then the
local-only loop. -/
def determineSyncActionsRaw (configDir : String)
    (shaFn : String → Option String)
    (remoteFiles localFiles : List (String × FileMetadata))
    (conflictFiles : List String) : List SyncAction :=
  (commonFilesOf localFiles remoteFiles conflictFiles).filterMap
      (commonFileAction configDir shaFn remoteFiles localFiles) ++
    remoteFiles.filterMap (remoteOnlyAction localFiles) ++
    localFiles.filterMap (localOnlyAction remoteFiles)

/-- determineSyncActions of the sync manager, with the trailing
config-directory filter: when syncConfigDir is disabled, actions on paths
under the config directory are dropped, except the manifest path. -/
def determineSyncActions (syncConfigDir : Bool) (configDir : String)
    (shaFn : String → Option String)
    (remoteFiles localFiles : List (String × FileMetadata))
    (conflictFiles : List String) : List SyncAction :=
  let actions :=
    determineSyncActionsRaw configDir shaFn remoteFiles localFiles conflictFiles
  if !syncConfigDir then
    actions.filter (fun action =>
      !(action.filePath.startsWith configDir) ||
        decide (action.filePath = manifestPath configDir))
  else actions

/-- The conflict test of findConflicts for one common path: the manifest is
never a conflict, both sides tombstoned is no conflict, otherwise a conflict
requires the remote hash to differ from the cached hash, the freshly
computed local hash to differ from the cached hash, and the remote hash to
differ from the freshly computed local hash. -/
def conflictCheck (configDir : String) (shaFn : String → Option String)
    (filesMetadata localFiles : List (String × FileMetadata))
    (filePath : String) : Option String :=
  if filePath = manifestPath configDir then none
  else
    match assocLookup filesMetadata filePath,
        assocLookup localFiles filePath with
    | some remoteFile, some localFile =>
      -- actualLocalSHA in the source is the freshly computed hash shaFn filePath
      if remoteFile.deleted && localFile.deleted then none
      else if remoteFile.sha ≠ localFile.sha ∧ shaFn filePath ≠ localFile.sha ∧
          remoteFile.sha ≠ shaFn filePath then some filePath
      else none
    | _, _ => none

/-- findConflicts of the sync manager, at the level of conflicting paths
(the later content-fetch stage is external I/O that keeps the paths 1:1). -/
def findConflicts (configDir : String) (shaFn : String → Option String)
    (filesMetadata localFiles : List (String × FileMetadata)) : List String :=
  let commonFiles := (filesMetadata.map Prod.fst).filter (fun key =>
    (assocLookup localFiles key).isSome)
  if commonFiles = [] then []
  else commonFiles.filterMap
    (conflictCheck configDir shaFn filesMetadata localFiles)

/-! ### Content hasher (calculateSHA) -/

/-- ASCII byte sequence of a string, as produced by TextEncoder on ASCII
input. -/
def encodeASCII (s : String) : List Nat := s.data.map Char.toNat

/-- Fuel-indexed helper computing the ASCII codes of the decimal digits of
a natural number; the fuel bounds the number of divisions by ten. -/
def natDigitsAux : Nat → Nat → List Nat
  | 0, _ => []
  | fuel + 1, n =>
    if n < 10 then [48 + n]
    else natDigitsAux fuel (n / 10) ++ [48 + n % 10]

/-- ASCII codes of the decimal digits of a natural number, as produced by
the template literal interpolation in the blob header (n + 1 units of fuel
always suffice since the argument shrinks at every division). -/
def natDigits (n : Nat) : List Nat := natDigitsAux (n + 1) n

/-- The byte sequence hashed by calculateSHA: the header
blob length NUL followed by the raw content bytes. -/
def blobStore (content : List Nat) : List Nat :=
  encodeASCII "blob " ++ natDigits content.length ++ [0] ++ content

/-- One hex digit, lowercase: b.toString(16) digit encoding. -/
def hexDigit (n : Nat) : Char :=
  if n < 10 then Char.ofNat (48 + n) else Char.ofNat (87 + n)

/-- The two lowercase hex characters of one byte:
b.toString(16).padStart(2, zero). -/
def hexCharsOfByte (b : Fin 256) : List Char :=
  [hexDigit (b.val / 16), hexDigit (b.val % 16)]

/-- Lowercase hex encoding of a digest, joining the two-character encodings
of the bytes. -/
def hexEncode (digest : List (Fin 256)) : String :=
  ⟨digest.flatMap hexCharsOfByte⟩

/-- The sixteen lowercase hex characters. -/
def hexAlphabet : List Char := "0123456789abcdef".toList

/-- Decoding value of a lowercase hex character, the inverse of hexDigit on
digits below sixteen. -/
def hexVal (c : Char) : Nat :=
  if 97 ≤ c.toNat then c.toNat - 87 else c.toNat - 48

/-- calculateSHA of the sync manager: none when the file does not exist,
otherwise the lowercase hex encoding of the digest of the blob store.
The SHA-1 primitive of crypto.subtle is external and passed as sha1;
its digest is a byte sequence. -/
def calculateSHA (sha1 : List Nat → List (Fin 256))
    (fs : String → Option (List Nat)) (filePath : String) : Option String :=
  match fs filePath with
  | none => none
  | some contentBytes => some (hexEncode (sha1 (blobStore contentBytes)))

/-! ### Commit coordinator (commitSync) -/

/-- The action kinds of the batched remote commit used by commitSync. -/
inductive ChangeAction
  | create
  | update
  | delete
deriving DecidableEq, Repr

/-- One entry of the batched change list sent to the remote commit API. -/
structure FileChange where
  action : ChangeAction
  path : String
  content : Option String
deriving DecidableEq, Repr

/-- NewTreeRequestItem of the sync manager.
sha is Option (Option String): none embeds undefined, some none embeds
null (the deletion marker), some (some s) embeds a hash string. -/
structure TreeFile where
  path : String
  mode : String
  type : String
  sha : Option (Option String) := none
  content : Option String := none
deriving DecidableEq, Repr

/-- The metadata snapshot held by the metadata store. -/
structure Metadata where
  lastSync : Nat
  files : List (String × FileMetadata)
deriving DecidableEq, Repr

/-- The state threaded through commitSync: the in-memory metadata, the
persisted metadata (the image written by the last save), the local vault
text files, and the list of change batches the remote accepted. -/
structure SyncState where
  store : Metadata
  saved : Metadata
  localFiles : List (String × String)
  remoteCommits : List (List FileChange)
deriving DecidableEq, Repr

/-- A fresh FileMetadata record as created by commitSync for a previously
unknown path. -/
def freshRecord (p : String) (sha : Option String) (now : Nat) :
    FileMetadata :=
  { path := p, sha := sha, dirty := false, justDownloaded := false,
    lastModified := now, deleted := false, deletedAt := none }

/-- One iteration of the commitSync loop over the target tree files:
a null sha marks a remote deletion (tombstoning the record), an item with
content becomes a create-or-update change (the record hash is refreshed
from the freshly computed local hash). -/
def commitSyncFileStep (shaFn : String → Option String) (syncTime now : Nat)
    (acc : List FileChange × List (String × FileMetadata))
    (treeFile : TreeFile) :
    List FileChange × List (String × FileMetadata) :=
  let changes := acc.1
  let files := acc.2
  if treeFile.sha = some none then
    let files :=
      if (assocLookup files treeFile.path).isSome then
        setRecordField files treeFile.path
          (fun m => { m with deleted := true, deletedAt := some syncTime })
      else files
    (changes ++ [{ action := .delete, path := treeFile.path, content := none }],
      files)
  else if treeFile.content.isSome then
    let sha := shaFn treeFile.path
    let files :=
      if (assocLookup files treeFile.path).isSome then files
      else files ++ [(treeFile.path, freshRecord treeFile.path sha now)]
    let files := setRecordField files treeFile.path
      (fun m => { m with sha := sha })
    let fileExistsInRemote :=
      match treeFile.sha with
      | some (some s) => decide (some s ≠ sha)
      | _ => false
    (changes ++ [{ action := if fileExistsInRemote then .update else .create,
                   path := treeFile.path, content := treeFile.content }],
      files)
  else (changes, files)

/-- commitSync of the sync manager. Effects in source order: lastSync is set
and persisted, resolved conflicts get lastModified bumped in memory, the
change list is built while metadata records are mutated, the manifest change
is appended last, the batch is committed atomically (commitSucceeds is the
outcome of the external call), and only on success are the
conflict-resolution contents written to local files and the metadata
persisted again. On failure the error propagates with the state as of the
throw. Returns whether the run succeeded, with the final state. -/
def commitSync (configDir : String) (shaFn : String → Option String)
    (serialize : Metadata → String) (now syncTime : Nat)
    (commitSucceeds : Bool) (treeFiles : List TreeFile)
    (conflictResolutions : List (String × String)) (s0 : SyncState) :
    Bool × SyncState :=
  let stInit : Metadata := { s0.store with lastSync := syncTime }
  let savedInit : Metadata := stInit
  let files0 := conflictResolutions.foldl
    (fun fs r => setRecordField fs r.1 (fun m => { m with lastModified := syncTime }))
    stInit.files
  let folded := treeFiles.foldl (commitSyncFileStep shaFn syncTime now)
    ([], files0)
  let manifestP := manifestPath configDir
  let manifestExists :=
    match assocLookup folded.2 manifestP with
    | some m => m.sha.isSome
    | none => false
  let manifestContent := serialize { lastSync := syncTime, files := folded.2 }
  let changes : List FileChange := folded.1 ++
    [{ action := if manifestExists then .update else .create,
       path := manifestP, content := some manifestContent }]
  let manifestSha := shaFn manifestP
  let files1 :=
    if (assocLookup folded.2 manifestP).isSome then folded.2
    else folded.2 ++ [(manifestP, freshRecord manifestP manifestSha now)]
  let files1 := setRecordField files1 manifestP
    (fun m => { m with sha := manifestSha })
  if changes.length > 0 then
    if commitSucceeds then
      let localFiles := conflictResolutions.foldl
        (fun lf r => assocSet lf r.1 r.2) s0.localFiles
      let files2 := conflictResolutions.foldl
        (fun fs r => setRecordField fs r.1
          (fun m => { m with lastModified := syncTime })) files1
      let stFinal : Metadata := { lastSync := syncTime, files := files2 }
      (true, { store := stFinal, saved := stFinal, localFiles := localFiles,
               remoteCommits := s0.remoteCommits ++ [changes] })
    else
      (false, { store := { lastSync := syncTime, files := files1 },
                saved := savedInit, localFiles := s0.localFiles,
                remoteCommits := s0.remoteCommits })
  else
    let localFiles := conflictResolutions.foldl
      (fun lf r => assocSet lf r.1 r.2) s0.localFiles
    let files2 := conflictResolutions.foldl
      (fun fs r => setRecordField fs r.1
        (fun m => { m with lastModified := syncTime })) files1
    let stFinal : Metadata := { lastSync := syncTime, files := files2 }
    (true, { store := stFinal, saved := stFinal, localFiles := localFiles,
             remoteCommits := s0.remoteCommits })

/-! ### Conflict-handling step of syncImpl -/

/-- The conflictHandling setting. -/
inductive ConflictHandling
  | ask
  | overwriteLocal
  | overwriteRemote
deriving DecidableEq, Repr

/-- A resolved conflict: path and winning content. -/
structure ConflictResolution where
  filePath : String
  content : String
deriving DecidableEq, Repr

/-- The conflict-handling step of syncImpl: conflictResolutions starts
empty; in the ask branch it becomes the resolver result and every resolution
becomes an upload; in the overwriteLocal and overwriteRemote branches the
actions are mapped over the conflictResolutions list as it stands at that
point. Returns (conflictResolutions, conflictActions). -/
def syncConflictStep (handling : ConflictHandling) (conflicts : List String)
    (askResolutions : List ConflictResolution) :
    List ConflictResolution × List SyncAction :=
  if conflicts.length > 0 then
    match handling with
    | .ask =>
      let conflictResolutions := askResolutions
      (conflictResolutions, conflictResolutions.map
        (fun r => { type := .upload, filePath := r.filePath }))
    | .overwriteLocal =>
      (([] : List ConflictResolution),
        ([] : List ConflictResolution).map
          (fun r => { type := .download, filePath := r.filePath }))
    | .overwriteRemote =>
      (([] : List ConflictResolution),
        ([] : List ConflictResolution).map
          (fun r => { type := .upload, filePath := r.filePath }))
  else (([] : List ConflictResolution), ([] : List SyncAction))

/-- The action list built by syncImpl: the general classification (with the
conflict-action paths excluded) followed by the conflict actions. -/
def syncImplActions (syncConfigDir : Bool) (configDir : String)
    (shaFn : String → Option String)
    (remoteFiles localFiles : List (String × FileMetadata))
    (handling : ConflictHandling)
    (askResolutions : List ConflictResolution) : List SyncAction :=
  let conflicts := findConflicts configDir shaFn remoteFiles localFiles
  let step := syncConflictStep handling conflicts askResolutions
  determineSyncActions syncConfigDir configDir shaFn remoteFiles localFiles
    (step.2.map (fun action => action.filePath)) ++ step.2

/-! ### Bootstrap decision (firstSyncImpl, vaultIsEmpty) -/

/-- vaultIsEmpty of the sync manager: the root listing has no files, or has
no folders other than the config directory (the disjunction is the source
text). -/
def vaultIsEmpty (configDir : String) (files folders : List String) : Bool :=
  files.length = 0 ||
    (folders.filter (fun f => f != configDir)).length = 0

/-- The possible outcomes of the first-sync decision. -/
inductive FirstSyncOutcome
  | fetchError (status : Nat)
  | structuralError
  | fromLocal
  | fromRemote
deriving DecidableEq, Repr

/-- The decision flow of firstSyncImpl: fetchStatus none embeds a successful
tree fetch (the remote has files), some s a failed fetch with HTTP status s.
Statuses 409 and 404 mean the repository is empty and are handled by
creating the manifest; other statuses abort the run. Then: both sides
non-empty is a structural error, an empty repository syncs from local,
otherwise the run syncs from remote. -/
def firstSyncImpl (fetchStatus : Option Nat) (configDir : String)
    (rootFiles rootFolders : List String) : FirstSyncOutcome :=
  match fetchStatus with
  | some s =>
    if s != 409 && s != 404 then .fetchError s
    else
      let repositoryIsEmpty := true
      let vaultEmpty := vaultIsEmpty configDir rootFiles rootFolders
      if !repositoryIsEmpty && !vaultEmpty then .structuralError
      else if repositoryIsEmpty then .fromLocal
      else .fromRemote
  | none =>
    let repositoryIsEmpty := false
    let vaultEmpty := vaultIsEmpty configDir rootFiles rootFolders
    if !repositoryIsEmpty && !vaultEmpty then .structuralError
    else if repositoryIsEmpty then .fromLocal
    else .fromRemote

/-! ### Sample records used by witnesses and counterexamples -/

/-- A record whose cached hash matches both the remote hash and the freshly
computed local hash. -/
def sampleSynced : FileMetadata :=
  { path := "a.md", sha := some "h", dirty := false, justDownloaded := false,
    lastModified := 10 }

/-- A remote record whose hash differs from the local cached hash. -/
def sampleRemoteChanged : FileMetadata :=
  { path := "a.md", sha := some "r", dirty := false, justDownloaded := false,
    lastModified := 10 }

/-- A local record whose cached hash differs from both the remote hash and
the freshly computed local hash. -/
def sampleLocalChanged : FileMetadata :=
  { path := "a.md", sha := some "l", dirty := false, justDownloaded := false,
    lastModified := 20 }

/-- A tombstoned remote record (deletedAt 100) whose retained hash matches
the current local content hash. -/
def sampleTombRemote : FileMetadata :=
  { path := "a.md", sha := some "h", dirty := false, justDownloaded := false,
    lastModified := 0, deleted := true, deletedAt := some 100 }

/-- A live local record last modified at 50 with cached hash h. -/
def sampleLocalEdit : FileMetadata :=
  { path := "a.md", sha := some "h", dirty := false, justDownloaded := false,
    lastModified := 50 }

/-- A tombstoned remote record deleted at time 5, hash g. -/
def sampleTombRemoteG : FileMetadata :=
  { path := "a.md", sha := some "g", dirty := false, justDownloaded := false,
    lastModified := 0, deleted := true, deletedAt := some 5 }

/-- A tombstoned remote record deleted at time 5 whose retained hash matches
the current local content hash. -/
def sampleTombRemoteEq : FileMetadata :=
  { path := "a.md", sha := some "h", dirty := false, justDownloaded := false,
    lastModified := 0, deleted := true, deletedAt := some 5 }

/-- A live local record last modified at time 5 with cached hash h. -/
def sampleLocalEq : FileMetadata :=
  { path := "a.md", sha := some "h", dirty := false, justDownloaded := false,
    lastModified := 5 }

/-- A non-tombstoned remote record sitting at the manifest path. -/
def sampleManifestRemote : FileMetadata :=
  { path := manifestPath ".obsidian", sha := some "m", dirty := false,
    justDownloaded := false, lastModified := 1 }

/-- A stand-in digest primitive used by the C8 witness: one byte carrying
the input length modulo 256. -/
def sampleDigest (x : List Nat) : List (Fin 256) :=
  [⟨x.length % 256, Nat.mod_lt _ (by omega)⟩]

/-- A vault content map used by the C8 witness: one empty file, one
one-byte binary file, nothing else. -/
def sampleVault : String → Option (List Nat) := fun s =>
  if s = "empty.md" then some []
  else if s = "bin.md" then some [7]
  else none

/-- A pre-run commit-coordinator state with lastSync 0, no records, one
local file, and no accepted remote batch. -/
def samplePreState : SyncState :=
  { store := { lastSync := 0, files := [] },
    saved := { lastSync := 0, files := [] },
    localFiles := [("c.md", "old")], remoteCommits := [] }

/-! ### Basic lemmas about the association-list embedding -/

lemma assocLookup_isSome_mem {α : Type} {m : List (String × α)} {p : String}
    (h : (assocLookup m p).isSome) : p ∈ m.map Prod.fst := by
  induction m with
  | nil => simp [assocLookup] at h
  | cons kv rest ih =>
    obtain ⟨k, v⟩ := kv
    rw [assocLookup] at h
    by_cases hpk : p = k
    · simp [hpk]
    · simp only [if_neg hpk] at h
      simp [ih h]

lemma mem_keys_lookup_isSome {α : Type} {m : List (String × α)} {p : String}
    (h : p ∈ m.map Prod.fst) : (assocLookup m p).isSome := by
  induction m with
  | nil => simp at h
  | cons kv rest ih =>
    obtain ⟨k, v⟩ := kv
    rw [assocLookup]
    by_cases hpk : p = k
    · simp [hpk]
    · simp only [List.map_cons, List.mem_cons] at h
      rcases h with h | h
      · exact absurd h hpk
      · simp only [if_neg hpk]
        exact ih h

lemma mem_pair_lookup_isSome {α : Type} {m : List (String × α)}
    {kv : String × α} (h : kv ∈ m) : (assocLookup m kv.1).isSome :=
  mem_keys_lookup_isSome (List.mem_map_of_mem Prod.fst h)

lemma filter_eq_single_of_nodup {l : List String} {p : String}
    (hnd : l.Nodup) (hp : p ∈ l) :
    l.filter (fun x => decide (x = p)) = [p] := by
  induction l with
  | nil => cases hp
  | cons a t ih =>
    rcases List.nodup_cons.mp hnd with ⟨ha, ht⟩
    rcases List.mem_cons.mp hp with h | h
    · subst h
      have hnil : t.filter (fun x => decide (x = p)) = [] := by
        refine List.filter_eq_nil_iff.mpr ?_
        intro b hb hba
        exact ha (of_decide_eq_true hba ▸ hb)
      simp [List.filter_cons, hnil]
    · have hap : ¬(a = p) := by
        rintro rfl
        exact ha h
      simp [List.filter_cons, hap, ih ht h]

lemma filterMap_filter_path {l : List String} {g : String → Option SyncAction}
    (hg : ∀ fp a, g fp = some a → a.filePath = fp) (p : String) :
    (l.filterMap g).filter (fun a => decide (a.filePath = p)) =
      (l.filter (fun fp => decide (fp = p))).filterMap g := by
  induction l with
  | nil => simp
  | cons x t ih =>
    rw [List.filterMap_cons, List.filter_cons]
    by_cases hxp : x = p
    · subst hxp
      cases hgx : g x with
      | none => simp [List.filterMap_cons, hgx, ih]
      | some a =>
        have hax := hg x a hgx
        simp [List.filter_cons, List.filterMap_cons, hgx, hax, ih]
    · cases hgx : g x with
      | none => simp [hxp, ih]
      | some a =>
        have hax := hg x a hgx
        simp [List.filter_cons, hax, hxp, ih]

lemma mem_filterMap_self {l : List String} {f : String → Option String}
    (hf : ∀ q r, f q = some r → r = q) (p : String) :
    p ∈ l.filterMap f ↔ p ∈ l ∧ f p = some p := by
  constructor
  · intro h
    obtain ⟨a, ha, hfa⟩ := List.mem_filterMap.mp h
    have := hf a p hfa
    subst this
    exact ⟨ha, hfa⟩
  · intro ⟨h1, h2⟩
    exact List.mem_filterMap.mpr ⟨p, h1, h2⟩

lemma syncActionForCommon_path {configDir : String}
    {shaFn : String → Option String} {filePath : String}
    {rf lf : FileMetadata} {a : SyncAction}
    (h : syncActionForCommon configDir shaFn filePath rf lf = some a) :
    a.filePath = filePath := by
  unfold syncActionForCommon at h
  split_ifs at h <;>
    first
    | exact Option.noConfusion h
    | (injection h with h2
       exact congrArg SyncAction.filePath h2.symm)

lemma commonFileAction_path {configDir : String}
    {shaFn : String → Option String}
    {remoteFiles localFiles : List (String × FileMetadata)}
    {filePath : String} {a : SyncAction}
    (h : commonFileAction configDir shaFn remoteFiles localFiles filePath =
      some a) : a.filePath = filePath := by
  unfold commonFileAction at h
  revert h
  cases assocLookup remoteFiles filePath <;>
    cases assocLookup localFiles filePath <;> intro h
  case some.some => exact syncActionForCommon_path h
  all_goals exact Option.noConfusion h

/-! ### Claim theorems -/

/-- Claim C3: for a path present in both remote and local metadata, not the
manifest marker and not tombstoned on both sides, findConflicts reports it
as a conflict if and only if the remote hash differs from the cached local
hash, the freshly computed local hash differs from the cached local hash,
and the remote hash differs from the freshly computed local hash; in
particular a local edit that makes the content match the remote exactly is
never reported. -/
theorem findConflicts_iff (configDir : String)
    (shaFn : String → Option String)
    (remoteFiles localFiles : List (String × FileMetadata))
    (p : String) (rf lf : FileMetadata)
    (hr : assocLookup remoteFiles p = some rf)
    (hl : assocLookup localFiles p = some lf)
    (hm : p ≠ manifestPath configDir)
    (hboth : ¬(rf.deleted = true ∧ lf.deleted = true)) :
    (p ∈ findConflicts configDir shaFn remoteFiles localFiles ↔
      (rf.sha ≠ lf.sha ∧ shaFn p ≠ lf.sha ∧ rf.sha ≠ shaFn p)) ∧
    (shaFn p = rf.sha →
      p ∉ findConflicts configDir shaFn remoteFiles localFiles) := by
  have hpk : p ∈ remoteFiles.map Prod.fst :=
    assocLookup_isSome_mem (by simp [hr])
  have hpc : p ∈ (remoteFiles.map Prod.fst).filter
      (fun key => (assocLookup localFiles key).isSome) :=
    List.mem_filter.mpr ⟨hpk, by simp [hl]⟩
  have hcne : (remoteFiles.map Prod.fst).filter
      (fun key => (assocLookup localFiles key).isSome) ≠ [] :=
    List.ne_nil_of_mem hpc
  have hbd : (rf.deleted && lf.deleted) = false := by
    cases hrd : rf.deleted <;> cases hld : lf.deleted <;> simp_all
  have hcheck : conflictCheck configDir shaFn remoteFiles localFiles p =
      (if rf.sha ≠ lf.sha ∧ shaFn p ≠ lf.sha ∧ rf.sha ≠ shaFn p then some p
       else none) := by
    unfold conflictCheck
    rw [if_neg hm]
    simp only [hr, hl, hbd]
    simp
  have hfun : ∀ q r,
      conflictCheck configDir shaFn remoteFiles localFiles q = some r →
      r = q := by
    intro q r hq
    unfold conflictCheck at hq
    split_ifs at hq
    revert hq
    cases assocLookup remoteFiles q <;> cases assocLookup localFiles q <;>
      intro hq <;>
      first
      | exact Option.noConfusion hq
      | (dsimp only at hq
         split_ifs at hq
         injection hq with h2
         exact h2.symm)
  have hmem : p ∈ findConflicts configDir shaFn remoteFiles localFiles ↔
      (rf.sha ≠ lf.sha ∧ shaFn p ≠ lf.sha ∧ rf.sha ≠ shaFn p) := by
    unfold findConflicts
    simp only [if_neg hcne]
    rw [mem_filterMap_self hfun]
    rw [hcheck]
    constructor
    · intro ⟨_, h2⟩
      split_ifs at h2 with hcond
      exact hcond
    · intro hcond
      exact ⟨hpc, by rw [if_pos hcond]⟩
  refine ⟨hmem, ?_⟩
  intro heq hmem2
  exact (hmem.mp hmem2).2.2 heq.symm

/-- Claim C5: when remote metadata, local cached metadata and the freshly
computed local hashes all agree (same key set, per path the remote hash,
cached hash and actual hash coincide and the tombstone flags agree),
a second reconciliation run finds no conflicts and produces no actions. -/
theorem reconcile_idempotent (syncConfigDir : Bool) (configDir : String)
    (shaFn : String → Option String)
    (remoteFiles localFiles : List (String × FileMetadata))
    (hkeys : ∀ p, (assocLookup remoteFiles p).isSome ↔
      (assocLookup localFiles p).isSome)
    (hagree : ∀ p rf lf, assocLookup remoteFiles p = some rf →
      assocLookup localFiles p = some lf →
      rf.sha = shaFn p ∧ lf.sha = shaFn p ∧ rf.deleted = lf.deleted) :
    findConflicts configDir shaFn remoteFiles localFiles = [] ∧
    determineSyncActions syncConfigDir configDir shaFn remoteFiles localFiles
      [] = [] := by
  have hcommon : ∀ q rf lf, assocLookup remoteFiles q = some rf →
      assocLookup localFiles q = some lf →
      syncActionForCommon configDir shaFn q rf lf = none := by
    intro q rf lf hr hl
    obtain ⟨h1, _, _⟩ := hagree q rf lf hr hl
    unfold syncActionForCommon
    split_ifs <;> simp_all
  have hconf : findConflicts configDir shaFn remoteFiles localFiles = [] := by
    simp only [findConflicts]
    split
    · rfl
    · refine List.filterMap_eq_nil_iff.mpr ?_
      intro q hq
      obtain ⟨hqk, hqs⟩ := List.mem_filter.mp hq
      obtain ⟨rf, hr⟩ := Option.isSome_iff_exists.mp
        (mem_keys_lookup_isSome hqk)
      obtain ⟨lf, hl⟩ := Option.isSome_iff_exists.mp (by simpa using hqs)
      obtain ⟨h1, h2, _⟩ := hagree q rf lf hr hl
      unfold conflictCheck
      split_ifs with hman
      · rfl
      · simp only [hr, hl]
        have hno : ¬(rf.sha ≠ lf.sha ∧ shaFn q ≠ lf.sha ∧
            rf.sha ≠ shaFn q) := by
          rw [h1, h2]
          simp
        split_ifs <;> simp_all
  have hraw : determineSyncActionsRaw configDir shaFn remoteFiles localFiles
      [] = [] := by
    unfold determineSyncActionsRaw
    have hA : (commonFilesOf localFiles remoteFiles []).filterMap
        (commonFileAction configDir shaFn remoteFiles localFiles) = [] := by
      refine List.filterMap_eq_nil_iff.mpr ?_
      intro q hq
      unfold commonFilesOf at hq
      obtain ⟨hqk, _⟩ := List.mem_filter.mp hq
      obtain ⟨rf, hr⟩ := Option.isSome_iff_exists.mp
        (mem_keys_lookup_isSome hqk)
      obtain ⟨lf, hl⟩ := Option.isSome_iff_exists.mp
        ((hkeys q).mp (by simp [hr]))
      unfold commonFileAction
      simp only [hr, hl]
      exact hcommon q rf lf hr hl
    have hB : remoteFiles.filterMap (remoteOnlyAction localFiles) = [] := by
      refine List.filterMap_eq_nil_iff.mpr ?_
      intro kv hkv
      have hs : (assocLookup localFiles kv.1).isSome :=
        (hkeys kv.1).mp (mem_pair_lookup_isSome hkv)
      unfold remoteOnlyAction
      simp [hs]
    have hC : localFiles.filterMap (localOnlyAction remoteFiles) = [] := by
      refine List.filterMap_eq_nil_iff.mpr ?_
      intro kv hkv
      have hs : (assocLookup remoteFiles kv.1).isSome :=
        (hkeys kv.1).mpr (mem_pair_lookup_isSome hkv)
      unfold localOnlyAction
      simp [hs]
    rw [hA, hB, hC]
    rfl
  refine ⟨hconf, ?_⟩
  unfold determineSyncActions
  rw [hraw]
  cases syncConfigDir <;> simp

/-- Witness for claim C3 at a concrete input: a path changed on both sides
with genuinely different content is reported as a conflict. -/
theorem findConflicts_iff_witness :
    "a.md" ∈ findConflicts ".obsidian" (fun _ => some "x")
      [("a.md", sampleRemoteChanged)] [("a.md", sampleLocalChanged)] :=
  (findConflicts_iff ".obsidian" (fun _ => some "x")
    [("a.md", sampleRemoteChanged)] [("a.md", sampleLocalChanged)]
    "a.md" sampleRemoteChanged sampleLocalChanged
    (by decide) (by decide) (by decide) (by decide)).1.mpr
    ⟨by decide, by decide, by decide⟩

/-- Witness for claim C5 at a concrete input: a fully synced single-file
state yields no conflicts and no actions. -/
theorem reconcile_idempotent_witness :
    findConflicts ".obsidian" (fun _ => some "h")
      [("a.md", sampleSynced)] [("a.md", sampleSynced)] = [] ∧
    determineSyncActions true ".obsidian" (fun _ => some "h")
      [("a.md", sampleSynced)] [("a.md", sampleSynced)] [] = [] :=
  reconcile_idempotent true ".obsidian" (fun _ => some "h")
    [("a.md", sampleSynced)] [("a.md", sampleSynced)]
    (fun p => by by_cases h : p = "a.md" <;> simp [assocLookup, h])
    (fun p rf lf hr hl => by
      by_cases h : p = "a.md" <;> simp [assocLookup, h] at hr hl
      subst hr
      subst hl
      exact ⟨rfl, rfl, rfl⟩)

lemma conflictCheck_manifest (configDir : String)
    (shaFn : String → Option String)
    (remoteFiles localFiles : List (String × FileMetadata)) :
    conflictCheck configDir shaFn remoteFiles localFiles
      (manifestPath configDir) = none := by
  unfold conflictCheck
  simp

lemma conflictCheck_path {configDir : String}
    {shaFn : String → Option String}
    {remoteFiles localFiles : List (String × FileMetadata)}
    {q r : String}
    (hq : conflictCheck configDir shaFn remoteFiles localFiles q = some r) :
    r = q := by
  unfold conflictCheck at hq
  split_ifs at hq
  revert hq
  cases assocLookup remoteFiles q <;> cases assocLookup localFiles q <;>
    intro hq <;>
    first
    | exact Option.noConfusion hq
    | (dsimp only at hq
       split_ifs at hq
       injection hq with h2
       exact h2.symm)

lemma commonFileAction_manifest (configDir : String)
    (shaFn : String → Option String)
    (remoteFiles localFiles : List (String × FileMetadata)) :
    commonFileAction configDir shaFn remoteFiles localFiles
      (manifestPath configDir) = none := by
  unfold commonFileAction
  cases assocLookup remoteFiles (manifestPath configDir) <;>
    cases assocLookup localFiles (manifestPath configDir) <;>
    simp [syncActionForCommon]

lemma remoteOnlyAction_some {localFiles : List (String × FileMetadata)}
    {kv : String × FileMetadata} {a : SyncAction}
    (h : remoteOnlyAction localFiles kv = some a) :
    a.filePath = kv.1 ∧ (assocLookup localFiles kv.1).isSome = false := by
  unfold remoteOnlyAction at h
  split_ifs at h with h1 h2
  injection h with h3
  exact ⟨congrArg SyncAction.filePath h3.symm, Bool.eq_false_iff.mpr h1⟩

lemma localOnlyAction_some {remoteFiles : List (String × FileMetadata)}
    {kv : String × FileMetadata} {a : SyncAction}
    (h : localOnlyAction remoteFiles kv = some a) :
    a.filePath = kv.1 ∧ (assocLookup remoteFiles kv.1).isSome = false := by
  unfold localOnlyAction at h
  split_ifs at h with h1 h2
  injection h with h3
  exact ⟨congrArg SyncAction.filePath h3.symm, Bool.eq_false_iff.mpr h1⟩

lemma determineSyncActionsRaw_filter_single
    (configDir : String) (shaFn : String → Option String)
    (remoteFiles localFiles : List (String × FileMetadata))
    (conflictFiles : List String) (p : String) (rf lf : FileMetadata)
    (a : SyncAction)
    (hnd : (remoteFiles.map Prod.fst).Nodup)
    (hr : assocLookup remoteFiles p = some rf)
    (hl : assocLookup localFiles p = some lf)
    (hc : p ∉ conflictFiles)
    (hact : syncActionForCommon configDir shaFn p rf lf = some a) :
    (determineSyncActionsRaw configDir shaFn remoteFiles localFiles
      conflictFiles).filter (fun x => decide (x.filePath = p)) = [a] := by
  unfold determineSyncActionsRaw
  rw [List.filter_append, List.filter_append]
  have hB : (remoteFiles.filterMap (remoteOnlyAction localFiles)).filter
      (fun x => decide (x.filePath = p)) = [] := by
    refine List.filter_eq_nil_iff.mpr ?_
    intro x hx hxp
    obtain ⟨kv, hkv, h⟩ := List.mem_filterMap.mp hx
    obtain ⟨hxkv, hns⟩ := remoteOnlyAction_some h
    have hkvp : kv.1 = p := hxkv ▸ of_decide_eq_true hxp
    rw [hkvp, hl] at hns
    exact Bool.noConfusion hns
  have hC : (localFiles.filterMap (localOnlyAction remoteFiles)).filter
      (fun x => decide (x.filePath = p)) = [] := by
    refine List.filter_eq_nil_iff.mpr ?_
    intro x hx hxp
    obtain ⟨kv, hkv, h⟩ := List.mem_filterMap.mp hx
    obtain ⟨hxkv, hns⟩ := localOnlyAction_some h
    have hkvp : kv.1 = p := hxkv ▸ of_decide_eq_true hxp
    rw [hkvp, hr] at hns
    exact Bool.noConfusion hns
  have hA : ((commonFilesOf localFiles remoteFiles conflictFiles).filterMap
      (commonFileAction configDir shaFn remoteFiles localFiles)).filter
      (fun x => decide (x.filePath = p)) = [a] := by
    rw [filterMap_filter_path (fun fp x h => commonFileAction_path h) p]
    have hpk : p ∈ remoteFiles.map Prod.fst :=
      assocLookup_isSome_mem (by simp [hr])
    have hcf : (commonFilesOf localFiles remoteFiles conflictFiles).filter
        (fun fp => decide (fp = p)) = [p] := by
      unfold commonFilesOf
      rw [List.filter_filter]
      have hcongr : ∀ x ∈ remoteFiles.map Prod.fst,
          (decide (x = p) && ((assocLookup localFiles x).isSome &&
            !(decide (x ∈ conflictFiles)))) = decide (x = p) := by
        intro x _
        by_cases hxp : x = p
        · subst hxp
          simp [hl, hc]
        · simp [hxp]
      rw [List.filter_congr hcongr]
      exact filter_eq_single_of_nodup hnd hpk
    rw [hcf]
    simp only [List.filterMap_cons, List.filterMap_nil]
    unfold commonFileAction
    rw [hr, hl]
    simp [hact]
  rw [hA, hB, hC]
  simp

lemma determineSyncActions_filter_single
    (syncConfigDir : Bool) (configDir : String)
    (shaFn : String → Option String)
    (remoteFiles localFiles : List (String × FileMetadata))
    (conflictFiles : List String) (p : String) (rf lf : FileMetadata)
    (a : SyncAction)
    (hnd : (remoteFiles.map Prod.fst).Nodup)
    (hr : assocLookup remoteFiles p = some rf)
    (hl : assocLookup localFiles p = some lf)
    (hc : p ∉ conflictFiles)
    (hact : syncActionForCommon configDir shaFn p rf lf = some a)
    (hcfg : syncConfigDir = true ∨ p.startsWith configDir = false) :
    (determineSyncActions syncConfigDir configDir shaFn remoteFiles localFiles
      conflictFiles).filter (fun x => decide (x.filePath = p)) = [a] := by
  have hraw := determineSyncActionsRaw_filter_single configDir shaFn
    remoteFiles localFiles conflictFiles p rf lf a hnd hr hl hc hact
  have hap : a.filePath = p := syncActionForCommon_path hact
  rcases hcfg with hcfg | hcfg
  · subst hcfg
    unfold determineSyncActions
    simpa using hraw
  · cases hsc : syncConfigDir with
    | true =>
      unfold determineSyncActions
      simpa using hraw
    | false =>
      unfold determineSyncActions
      simp only [Bool.not_false, if_pos]
      rw [List.filter_filter]
      have hcongr : ∀ x ∈ determineSyncActionsRaw configDir shaFn remoteFiles
          localFiles conflictFiles,
          (decide (x.filePath = p) && (!(x.filePath.startsWith configDir) ||
            decide (x.filePath = manifestPath configDir))) =
          decide (x.filePath = p) := by
        intro x _
        by_cases hxp : x.filePath = p
        · rw [hxp, hcfg]
          simp
        · simp [hxp]
      rw [List.filter_congr hcongr]
      exact hraw

/-- Claim C6: the config-directory filter of determineSyncActions.
With syncConfigDir enabled the output is the unfiltered action list; with it
disabled the output is exactly the unfiltered list restricted to actions
outside the config directory plus actions on the manifest path; every
surviving config-directory action is the manifest action, manifest actions
always survive the filter, and actions outside the config directory are
returned unchanged. -/
theorem determineSyncActions_configDir_filter (configDir : String)
    (shaFn : String → Option String)
    (remoteFiles localFiles : List (String × FileMetadata))
    (conflictFiles : List String) :
    determineSyncActions true configDir shaFn remoteFiles localFiles
        conflictFiles =
      determineSyncActionsRaw configDir shaFn remoteFiles localFiles
        conflictFiles ∧
    determineSyncActions false configDir shaFn remoteFiles localFiles
        conflictFiles =
      (determineSyncActionsRaw configDir shaFn remoteFiles localFiles
        conflictFiles).filter (fun action =>
          !(action.filePath.startsWith configDir) ||
            decide (action.filePath = manifestPath configDir)) ∧
    (∀ a ∈ determineSyncActions false configDir shaFn remoteFiles localFiles
        conflictFiles,
      a.filePath.startsWith configDir = true →
        a.filePath = manifestPath configDir) ∧
    (∀ a ∈ determineSyncActionsRaw configDir shaFn remoteFiles localFiles
        conflictFiles,
      a.filePath = manifestPath configDir →
        a ∈ determineSyncActions false configDir shaFn remoteFiles localFiles
          conflictFiles) ∧
    (∀ a ∈ determineSyncActionsRaw configDir shaFn remoteFiles localFiles
        conflictFiles,
      a.filePath.startsWith configDir = false →
        a ∈ determineSyncActions false configDir shaFn remoteFiles localFiles
          conflictFiles) := by
  have h1 : determineSyncActions true configDir shaFn remoteFiles localFiles
      conflictFiles = determineSyncActionsRaw configDir shaFn remoteFiles
      localFiles conflictFiles := by
    unfold determineSyncActions
    simp
  have h2 : determineSyncActions false configDir shaFn remoteFiles localFiles
      conflictFiles = (determineSyncActionsRaw configDir shaFn remoteFiles
      localFiles conflictFiles).filter (fun action =>
        !(action.filePath.startsWith configDir) ||
          decide (action.filePath = manifestPath configDir)) := by
    unfold determineSyncActions
    simp
  refine ⟨h1, h2, ?_, ?_, ?_⟩
  · intro a ha hsw
    rw [h2] at ha
    have hpred := (List.mem_filter.mp ha).2
    rw [hsw] at hpred
    simpa using hpred
  · intro a ha heq
    rw [h2]
    exact List.mem_filter.mpr ⟨ha, by simp [heq]⟩
  · intro a ha hsw
    rw [h2]
    exact List.mem_filter.mpr ⟨ha, by simp [hsw]⟩

/-- Witness for claim C6 at a concrete input: with config sync disabled, a
manifest action produced for a remote-only manifest entry survives the
filter. -/
theorem determineSyncActions_configDir_filter_witness :
    SyncAction.mk .download (manifestPath ".obsidian") ∈
      determineSyncActions false ".obsidian" (fun _ => none)
        [(manifestPath ".obsidian", sampleManifestRemote)] [] [] :=
  (determineSyncActions_configDir_filter ".obsidian" (fun _ => none)
    [(manifestPath ".obsidian", sampleManifestRemote)] [] []).2.2.2.1
    (SyncAction.mk .download (manifestPath ".obsidian")) (by decide) (by decide)

/-- Claim C7 counterexample: with the manifest path present only in the
remote metadata and not tombstoned, determineSyncActions emits a download
action whose path is the manifest marker path, so the claim that no action
ever carries the manifest path is false. -/
theorem determineSyncActions_manifest_cex :
    determineSyncActions true ".obsidian" (fun _ => none)
      [(manifestPath ".obsidian", sampleManifestRemote)] [] [] =
      [{ type := .download, filePath := manifestPath ".obsidian" }] := by
  decide

/-- Claim C7 amended: the manifest marker path never appears in the conflict
list of findConflicts (for every input); and whenever the manifest path is
known to both the remote and the local metadata maps, determineSyncActions
never emits an action whose path is the manifest marker path (an action on
the manifest can only arise when the manifest is missing from one side). -/
theorem manifest_exclusion (syncConfigDir : Bool) (configDir : String)
    (shaFn : String → Option String)
    (remoteFiles localFiles : List (String × FileMetadata))
    (conflictFiles : List String) :
    manifestPath configDir ∉
      findConflicts configDir shaFn remoteFiles localFiles ∧
    ((assocLookup remoteFiles (manifestPath configDir)).isSome →
     (assocLookup localFiles (manifestPath configDir)).isSome →
     ∀ a ∈ determineSyncActions syncConfigDir configDir shaFn remoteFiles
        localFiles conflictFiles,
       a.filePath ≠ manifestPath configDir) := by
  constructor
  · intro hmem
    simp only [findConflicts] at hmem
    split at hmem
    · cases hmem
    · obtain ⟨q, hq, hcq⟩ := List.mem_filterMap.mp hmem
      have hqp := conflictCheck_path hcq
      subst hqp
      rw [conflictCheck_manifest] at hcq
      exact Option.noConfusion hcq
  · intro hrm hlm a ha hap
    have haraw : a ∈ determineSyncActionsRaw configDir shaFn remoteFiles
        localFiles conflictFiles := by
      unfold determineSyncActions at ha
      cases syncConfigDir with
      | true => simpa using ha
      | false =>
        simp only [Bool.not_false, if_pos] at ha
        exact (List.mem_filter.mp ha).1
    unfold determineSyncActionsRaw at haraw
    rcases List.mem_append.mp haraw with haraw | hC
    · rcases List.mem_append.mp haraw with hA | hB
      · obtain ⟨q, hq, hcq⟩ := List.mem_filterMap.mp hA
        have hqp := commonFileAction_path hcq
        rw [hap] at hqp
        rw [← hqp] at hcq
        rw [commonFileAction_manifest] at hcq
        exact Option.noConfusion hcq
      · obtain ⟨kv, hkv, h⟩ := List.mem_filterMap.mp hB
        obtain ⟨hxkv, hns⟩ := remoteOnlyAction_some h
        rw [hap] at hxkv
        rw [← hxkv, hlm] at hns
        exact Bool.noConfusion hns
    · obtain ⟨kv, hkv, h⟩ := List.mem_filterMap.mp hC
      obtain ⟨hxkv, hns⟩ := localOnlyAction_some h
      rw [hap] at hxkv
      rw [← hxkv, hrm] at hns
      exact Bool.noConfusion hns

/-- Witness for the amended claim C7 at a concrete input: with the manifest
present on both sides, the classifier output for a changed regular file
contains no manifest action. -/
theorem manifest_exclusion_witness :
    manifestPath ".obsidian" ∉
      findConflicts ".obsidian" (fun _ => some "x")
        [(manifestPath ".obsidian", sampleManifestRemote)]
        [(manifestPath ".obsidian", sampleManifestRemote)] ∧
    ∀ a ∈ determineSyncActions true ".obsidian" (fun _ => some "x")
        [(manifestPath ".obsidian", sampleManifestRemote)]
        [(manifestPath ".obsidian", sampleManifestRemote)] [],
      a.filePath ≠ manifestPath ".obsidian" :=
  ⟨(manifest_exclusion true ".obsidian" (fun _ => some "x")
      [(manifestPath ".obsidian", sampleManifestRemote)]
      [(manifestPath ".obsidian", sampleManifestRemote)] []).1,
   (manifest_exclusion true ".obsidian" (fun _ => some "x")
      [(manifestPath ".obsidian", sampleManifestRemote)]
      [(manifestPath ".obsidian", sampleManifestRemote)] []).2
     (by decide) (by decide)⟩

/-- Claim C2 counterexample: the remote record is tombstoned at 100 and the
live local record has lastModified 50, so the claim demands exactly one
delete_local action; but the tombstoned remote record retained a hash equal
to the freshly computed local hash, the hash-equality early return fires
first, and no action at all is emitted. -/
theorem tombstone_tiebreak_cex :
    determineSyncActions true ".obsidian" (fun _ => some "h")
      [("a.md", sampleTombRemote)] [("a.md", sampleLocalEdit)] [] = [] := by
  decide

/-- Claim C2 amended: for a path present in both maps with the remote record
tombstoned at t1 and the live local record modified at t2, and additionally
the remote hash differing from the freshly computed local hash, the path not
being the manifest marker, not listed as a conflict, and not removed by the
config-directory filter, determineSyncActions emits exactly one action for
that path: delete_local when t1 exceeds t2, upload when t2 exceeds t1. -/
theorem tombstone_tiebreak
    (syncConfigDir : Bool) (configDir : String)
    (shaFn : String → Option String)
    (remoteFiles localFiles : List (String × FileMetadata))
    (conflictFiles : List String) (p : String) (rf lf : FileMetadata)
    (t1 t2 : Nat)
    (hnd : (remoteFiles.map Prod.fst).Nodup)
    (hr : assocLookup remoteFiles p = some rf)
    (hl : assocLookup localFiles p = some lf)
    (hrd : rf.deleted = true) (hdt : rf.deletedAt = some t1)
    (hld : lf.deleted = false) (hlm : lf.lastModified = t2)
    (hp : p ≠ manifestPath configDir)
    (hc : p ∉ conflictFiles)
    (hsha : rf.sha ≠ shaFn p)
    (hcfg : syncConfigDir = true ∨ p.startsWith configDir = false) :
    (t2 < t1 →
      (determineSyncActions syncConfigDir configDir shaFn remoteFiles
        localFiles conflictFiles).filter (fun x => decide (x.filePath = p)) =
        [{ type := .delete_local, filePath := p }]) ∧
    (t1 < t2 →
      (determineSyncActions syncConfigDir configDir shaFn remoteFiles
        localFiles conflictFiles).filter (fun x => decide (x.filePath = p)) =
        [{ type := .upload, filePath := p }]) := by
  constructor
  · intro ht
    refine determineSyncActions_filter_single syncConfigDir configDir shaFn
      remoteFiles localFiles conflictFiles p rf lf _ hnd hr hl hc ?_ hcfg
    unfold syncActionForCommon
    rw [if_neg hp]
    simp [hrd, hld, hdt, hlm, jsGtOpt, ht, hsha]
  · intro ht
    refine determineSyncActions_filter_single syncConfigDir configDir shaFn
      remoteFiles localFiles conflictFiles p rf lf _ hnd hr hl hc ?_ hcfg
    unfold syncActionForCommon
    rw [if_neg hp]
    simp [hrd, hld, hdt, hlm, jsGtOpt, jsLtOpt, ht, Nat.lt_asymm ht, hsha]

/-- Witness for the amended claim C2 at a concrete input: remote delete at 5,
local edit at 50, differing hashes: one upload action is emitted. -/
theorem tombstone_tiebreak_witness :
    (determineSyncActions true ".obsidian" (fun _ => some "h")
      [("a.md", sampleTombRemoteG)] [("a.md", sampleLocalEdit)] []).filter
      (fun x => decide (x.filePath = "a.md")) =
      [{ type := .upload, filePath := "a.md" }] :=
  (tombstone_tiebreak true ".obsidian" (fun _ => some "h")
    [("a.md", sampleTombRemoteG)] [("a.md", sampleLocalEdit)] [] "a.md"
    sampleTombRemoteG sampleLocalEdit 5 50
    (by decide) (by decide) (by decide) (by decide) (by decide) (by decide)
    (by decide) (by decide) (by decide) (by decide) (Or.inl rfl)).2
    (by omega)

/-- Claim C10 counterexample: remote tombstoned at 5 and local modified at 5
with the freshly computed local hash equal to the cached one, so the claim
demands a download action from the hash fall-through; but the retained
remote hash also equals the freshly computed local hash, the hash-equality
early return fires before the tombstone branches, and no action is
emitted. -/
theorem equal_timestamp_cex :
    determineSyncActions true ".obsidian" (fun _ => some "h")
      [("a.md", sampleTombRemoteEq)] [("a.md", sampleLocalEq)] [] = [] := by
  decide

/-- Claim C10 amended: for a path present in both maps with exactly one side
tombstoned and the tombstone timestamp equal to the other side's
lastModified, and additionally the remote hash differing from the freshly
computed local hash, the path not being the manifest marker, not listed as a
conflict, and not removed by the config-directory filter, neither tombstone
branch fires and the hash comparison emits exactly one action: upload when
the freshly computed local hash differs from the cached local hash, download
otherwise. -/
theorem equal_timestamp_fallthrough
    (syncConfigDir : Bool) (configDir : String)
    (shaFn : String → Option String)
    (remoteFiles localFiles : List (String × FileMetadata))
    (conflictFiles : List String) (p : String) (rf lf : FileMetadata)
    (t : Nat)
    (hnd : (remoteFiles.map Prod.fst).Nodup)
    (hr : assocLookup remoteFiles p = some rf)
    (hl : assocLookup localFiles p = some lf)
    (hdir : (rf.deleted = true ∧ lf.deleted = false ∧
        rf.deletedAt = some t ∧ lf.lastModified = t) ∨
      (rf.deleted = false ∧ lf.deleted = true ∧
        lf.deletedAt = some t ∧ rf.lastModified = t))
    (hp : p ≠ manifestPath configDir)
    (hc : p ∉ conflictFiles)
    (hsha : rf.sha ≠ shaFn p)
    (hcfg : syncConfigDir = true ∨ p.startsWith configDir = false) :
    (shaFn p ≠ lf.sha →
      (determineSyncActions syncConfigDir configDir shaFn remoteFiles
        localFiles conflictFiles).filter (fun x => decide (x.filePath = p)) =
        [{ type := .upload, filePath := p }]) ∧
    (shaFn p = lf.sha →
      (determineSyncActions syncConfigDir configDir shaFn remoteFiles
        localFiles conflictFiles).filter (fun x => decide (x.filePath = p)) =
        [{ type := .download, filePath := p }]) := by
  constructor
  · intro hup
    refine determineSyncActions_filter_single syncConfigDir configDir shaFn
      remoteFiles localFiles conflictFiles p rf lf _ hnd hr hl hc ?_ hcfg
    unfold syncActionForCommon
    rw [if_neg hp]
    rcases hdir with ⟨h1, h2, h3, h4⟩ | ⟨h1, h2, h3, h4⟩ <;>
      simp [h1, h2, h3, h4, jsGtOpt, jsLtOpt, hsha, hup]
  · intro hdn
    refine determineSyncActions_filter_single syncConfigDir configDir shaFn
      remoteFiles localFiles conflictFiles p rf lf _ hnd hr hl hc ?_ hcfg
    have hsha2 : ¬rf.sha = lf.sha := by
      rw [← hdn]
      exact hsha
    unfold syncActionForCommon
    rw [if_neg hp]
    rcases hdir with ⟨h1, h2, h3, h4⟩ | ⟨h1, h2, h3, h4⟩ <;>
      simp [h1, h2, h3, h4, jsGtOpt, jsLtOpt, hsha, hdn, hsha2]

/-- Witness for the amended claim C10 at a concrete input: remote delete and
local modification both at time 5 with the freshly computed hash equal to
the cached one and a differing remote hash: one download action is
emitted. -/
theorem equal_timestamp_fallthrough_witness :
    (determineSyncActions true ".obsidian" (fun _ => some "h")
      [("a.md", sampleTombRemoteG)] [("a.md", sampleLocalEq)] []).filter
      (fun x => decide (x.filePath = "a.md")) =
      [{ type := .download, filePath := "a.md" }] :=
  (equal_timestamp_fallthrough true ".obsidian" (fun _ => some "h")
    [("a.md", sampleTombRemoteG)] [("a.md", sampleLocalEq)] [] "a.md"
    sampleTombRemoteG sampleLocalEq 5
    (by decide) (by decide) (by decide)
    (Or.inl (by decide)) (by decide) (by decide) (by decide)
    (Or.inl rfl)).2 (by decide)

/-- Claim C9 counterexample: with conflictHandling overwriteLocal and a
non-empty conflict list for a.md, the conflict step indeed yields no actions
and no resolutions; but the exclusion list passed to the classifier is
therefore empty and the conflicting path a.md is classified generally: the
combined syncImpl action list contains an upload for a.md, refuting the
claim that the conflicting paths remain excluded from general
classification. -/
theorem syncImpl_overwrite_cex :
    findConflicts ".obsidian" (fun _ => some "x")
      [("a.md", sampleRemoteChanged)] [("a.md", sampleLocalChanged)] =
      ["a.md"] ∧
    syncConflictStep .overwriteLocal ["a.md"] [] = ([], []) ∧
    syncImplActions true ".obsidian" (fun _ => some "x")
      [("a.md", sampleRemoteChanged)] [("a.md", sampleLocalChanged)]
      .overwriteLocal [] =
      [{ type := .upload, filePath := "a.md" }] := by
  decide

/-- Claim C9 amended: in the overwriteLocal and overwriteRemote branches the
conflict step returns an empty resolution list and an empty action list
(the actions are mapped over the still-empty resolution list), so no upload
or download is generated for any conflicting path by the conflict-handling
step; consequently the exclusion list passed to determineSyncActions is
empty and the conflicting paths are not excluded from general
classification: the syncImpl action list equals the general classification
run with an empty exclusion list. -/
theorem syncImpl_overwrite_empty (handling : ConflictHandling)
    (hh : handling = .overwriteLocal ∨ handling = .overwriteRemote)
    (conflicts : List String) (_hc : conflicts ≠ [])
    (askResolutions : List ConflictResolution)
    (syncConfigDir : Bool) (configDir : String)
    (shaFn : String → Option String)
    (remoteFiles localFiles : List (String × FileMetadata)) :
    syncConflictStep handling conflicts askResolutions = ([], []) ∧
    syncImplActions syncConfigDir configDir shaFn remoteFiles localFiles
      handling askResolutions =
      determineSyncActions syncConfigDir configDir shaFn remoteFiles
        localFiles [] := by
  have hstep : ∀ cs : List String,
      syncConflictStep handling cs askResolutions = ([], []) := by
    intro cs
    unfold syncConflictStep
    rcases hh with rfl | rfl <;> split_ifs <;> simp
  refine ⟨hstep conflicts, ?_⟩
  simp [syncImplActions, hstep]

/-- Witness for the amended claim C9 at a concrete input with
overwriteRemote and one genuine conflict. -/
theorem syncImpl_overwrite_empty_witness :
    syncConflictStep .overwriteRemote ["a.md"] [] = ([], []) ∧
    syncImplActions true ".obsidian" (fun _ => some "x")
      [("a.md", sampleRemoteChanged)] [("a.md", sampleLocalChanged)]
      .overwriteRemote [] =
      determineSyncActions true ".obsidian" (fun _ => some "x")
        [("a.md", sampleRemoteChanged)] [("a.md", sampleLocalChanged)] [] :=
  syncImpl_overwrite_empty .overwriteRemote (Or.inr rfl) ["a.md"]
    (by decide) [] true ".obsidian" (fun _ => some "x")
    [("a.md", sampleRemoteChanged)] [("a.md", sampleLocalChanged)]

/-- Claim C1 counterexample: a run whose remote batch commit raises (sync
time 5, pre-run lastSync 0) leaves the persisted metadata store with
lastSync 5: commitSync sets and persists lastSync before the remote commit,
so on failure the metadata store does not remain at its pre-run state. -/
theorem commitSync_cex :
    (commitSync ".obsidian" (fun _ => none) (fun _ => "m") 0 5 false []
      [] samplePreState).1 = false ∧
    (commitSync ".obsidian" (fun _ => none) (fun _ => "m") 0 5 false []
      [] samplePreState).2.saved.lastSync = 5 ∧
    samplePreState.saved.lastSync = 0 := by
  decide

/-- Claim C1 amended: when the remote batch commit raises, commitSync writes
no conflict-resolution content to local storage and the remote tree is
unchanged (conflict-resolution content is applied locally only after the
commit succeeds); but the metadata store does not remain at its pre-run
state: the persisted snapshot already carries lastSync = syncTime, saved
before the commit (with the pre-run per-file records). -/
theorem commitSync_failure (configDir : String)
    (shaFn : String → Option String) (serialize : Metadata → String)
    (now syncTime : Nat) (treeFiles : List TreeFile)
    (conflictResolutions : List (String × String)) (s0 : SyncState) :
    (commitSync configDir shaFn serialize now syncTime false treeFiles
      conflictResolutions s0).1 = false ∧
    (commitSync configDir shaFn serialize now syncTime false treeFiles
      conflictResolutions s0).2.localFiles = s0.localFiles ∧
    (commitSync configDir shaFn serialize now syncTime false treeFiles
      conflictResolutions s0).2.remoteCommits = s0.remoteCommits ∧
    (commitSync configDir shaFn serialize now syncTime false treeFiles
      conflictResolutions s0).2.saved =
      { lastSync := syncTime, files := s0.store.files } := by
  have hpos : ∀ (l : List FileChange) (c : FileChange),
      (l ++ [c]).length > 0 := by
    intro l c
    simp
  refine ⟨?_, ?_, ?_, ?_⟩ <;>
    (simp only [commitSync]
     rw [if_pos (hpos _ _)]
     simp)

/-- Claim C4 (code-bug evidence): with a successful tree fetch (non-empty
remote) and a local vault whose root listing has a file but no folders
other than the config directory, vaultIsEmpty wrongly reports the vault as
empty (the source tests files-empty OR no-non-config-folders while its own
doc comment describes vault emptiness), so firstSyncImpl proceeds with a
sync from remote instead of failing with the structural error the claim and
the README require. -/
theorem firstSync_bootstrap_gate_bug :
    vaultIsEmpty ".obsidian" ["note.md"] [".obsidian"] = true ∧
    ["note.md"] ≠ ([] : List String) ∧
    firstSyncImpl none ".obsidian" ["note.md"] [".obsidian"] =
      FirstSyncOutcome.fromRemote ∧
    firstSyncImpl none ".obsidian" ["note.md"] [".obsidian"] ≠
      FirstSyncOutcome.structuralError := by
  decide

/-! ### Lemmas about the content hasher -/

lemma natDigitsAux_ne_nil (fuel n : Nat) : natDigitsAux (fuel + 1) n ≠ [] := by
  unfold natDigitsAux
  split_ifs <;> simp

lemma natDigits_ne_nil (n : Nat) : natDigits n ≠ [] :=
  natDigitsAux_ne_nil n n

lemma blobStore_length (c : List Nat) :
    (blobStore c).length = 6 + (natDigits c.length).length + c.length := by
  unfold blobStore
  have h5 : (encodeASCII "blob ").length = 5 := by decide
  simp [h5]
  omega

lemma blobStore_empty_ne {c : List Nat} (hc : c ≠ []) :
    blobStore [] ≠ blobStore c := by
  intro h
  have h1 := congrArg List.length h
  rw [blobStore_length, blobStore_length] at h1
  have h0 : (natDigits (List.length ([] : List Nat))).length = 1 := by decide
  have hp : 0 < (natDigits c.length).length :=
    List.length_pos.mpr (natDigits_ne_nil c.length)
  have hcl : 0 < c.length := List.length_pos.mpr hc
  simp only [List.length_nil] at h1 h0
  omega

set_option maxRecDepth 8192 in
lemma hexPair_retract : ∀ b : Fin 256,
    16 * hexVal (hexDigit (b.val / 16)) + hexVal (hexDigit (b.val % 16)) =
      b.val := by
  decide

lemma hexCharsOfByte_inj {a b : Fin 256}
    (h1 : hexDigit (a.val / 16) = hexDigit (b.val / 16))
    (h2 : hexDigit (a.val % 16) = hexDigit (b.val % 16)) : a = b := by
  have ha := hexPair_retract a
  have hb := hexPair_retract b
  apply Fin.ext
  rw [← ha, ← hb, h1, h2]

lemma hexChars_inj : ∀ x y : List (Fin 256),
    x.flatMap hexCharsOfByte = y.flatMap hexCharsOfByte → x = y := by
  intro x
  induction x with
  | nil =>
    intro y h
    cases y with
    | nil => rfl
    | cons b ys =>
      rw [List.flatMap_nil, List.flatMap_cons] at h
      exact absurd h.symm (by simp [hexCharsOfByte])
  | cons a xs ih =>
    intro y h
    cases y with
    | nil =>
      rw [List.flatMap_nil, List.flatMap_cons] at h
      exact absurd h (by simp [hexCharsOfByte])
    | cons b ys =>
      rw [List.flatMap_cons, List.flatMap_cons] at h
      simp only [hexCharsOfByte, List.cons_append, List.nil_append] at h
      injection h with h1 h'
      injection h' with h2 h3
      have hab : a = b := hexCharsOfByte_inj h1 h2
      rw [hab, ih ys h3]

lemma hexEncode_inj {x y : List (Fin 256)}
    (h : hexEncode x = hexEncode y) : x = y := by
  unfold hexEncode at h
  injection h with h1
  exact hexChars_inj x y h1

lemma hexDigit_mem_alphabet : ∀ k : Fin 16, hexDigit k.val ∈ hexAlphabet := by
  decide

lemma hexEncode_chars_mem (d : List (Fin 256)) :
    ∀ c ∈ (hexEncode d).data, c ∈ hexAlphabet := by
  intro c hc
  unfold hexEncode at hc
  obtain ⟨b, hb, hcb⟩ := List.mem_flatMap.mp hc
  unfold hexCharsOfByte at hcb
  have hdiv : b.val / 16 < 16 := by
    have := b.isLt
    omega
  have hmod : b.val % 16 < 16 := Nat.mod_lt _ (by omega)
  rcases List.mem_cons.mp hcb with h1 | h1
  · exact h1 ▸ hexDigit_mem_alphabet ⟨b.val / 16, hdiv⟩
  · rcases List.mem_cons.mp h1 with h2 | h2
    · exact h2 ▸ hexDigit_mem_alphabet ⟨b.val % 16, hmod⟩
    · cases h2

/-- Claim C8: calculateSHA is deterministic and pure: its result depends
only on the file content; an existing file hashes to the lowercase hex
encoding of the digest of the blob header (blob, the byte length, a NUL)
followed by the raw bytes, for empty and non-empty content by the same
rule; a missing file yields none rather than an error; and as long as the
digest primitive does not collide on the two distinct stores, the digest of
empty content differs from the digest of any non-empty content (the stores
themselves always differ because the header carries the length). -/
theorem calculateSHA_spec (sha1 : List Nat → List (Fin 256))
    (fs fs2 : String → Option (List Nat)) (p q : String) :
    (fs p = none → calculateSHA sha1 fs p = none) ∧
    (∀ bs, fs p = some bs →
      calculateSHA sha1 fs p = some (hexEncode (sha1 (blobStore bs)))) ∧
    (fs p = fs2 q → calculateSHA sha1 fs p = calculateSHA sha1 fs2 q) ∧
    (∀ bs, fs p = some bs → ∀ c ∈ (hexEncode (sha1 (blobStore bs))).data,
      c ∈ hexAlphabet) ∧
    (∀ bs, bs ≠ [] →
      (sha1 (blobStore []) = sha1 (blobStore bs) →
        blobStore [] = blobStore bs) →
      fs p = some [] → fs2 q = some bs →
      calculateSHA sha1 fs p ≠ calculateSHA sha1 fs2 q) := by
  refine ⟨?_, ?_, ?_, ?_, ?_⟩
  · intro h
    unfold calculateSHA
    rw [h]
  · intro bs h
    unfold calculateSHA
    rw [h]
  · intro h
    unfold calculateSHA
    rw [h]
  · intro bs _ c hc
    exact hexEncode_chars_mem _ c hc
  · intro bs hbs hnc hp hq heq
    unfold calculateSHA at heq
    rw [hp, hq] at heq
    injection heq with heq2
    exact blobStore_empty_ne hbs (hnc (hexEncode_inj heq2))

/-- Witness for claim C8 at a concrete input: a missing path hashes to
none, and empty content hashes differently from one-byte content under a
digest stand-in that does not collide on the two stores. -/
theorem calculateSHA_spec_witness :
    calculateSHA sampleDigest sampleVault "missing.md" = none ∧
    calculateSHA sampleDigest sampleVault "empty.md" ≠
      calculateSHA sampleDigest sampleVault "bin.md" :=
  ⟨(calculateSHA_spec sampleDigest sampleVault sampleVault "missing.md"
      "missing.md").1 (by decide),
   (calculateSHA_spec sampleDigest sampleVault sampleVault "empty.md"
      "bin.md").2.2.2.2 [7] (by decide)
     (fun hcol => absurd hcol (by decide)) (by decide) (by decide)⟩

end GiteeSync
